import Mathlib

/-!
# Verification of the kanban drag-and-drop reordering engine

A shallow embedding of the drag-and-drop core of the `ahj-dnd` kanban board:

* `StorageService` (`src/ts/components/task-board/services/StorageService.ts`):
  the persistent store is a list of column records; `saveColumn` replaces the
  first record with a matching id (JS `findIndex` + assignment) or pushes at
  the end, `getColumn` is a first-match lookup, `addCardToColumn` fetches or
  creates a record and pushes the card.
* `DropAndDragService` (the drag engine): the DOM relevant to the engine is
  modelled as a list of columns, each holding a list of nodes; a node is
  either a card (identified by its id) or the placeholder `li`. Geometry
  (`getBoundingClientRect`) is an oracle `String → Rect` giving each card's
  box; coordinates are rationals. The handlers `_handleMouseDown`,
  `_handleMouseMove`, `_handleMouseUp`, `_updatePlaceholderPosition`,
  `_finishDragging`, `_updateLocalStorage` and `_cleanup` are translated as
  pure state transformers; the one DOM operation that can throw during
  reconciliation (`insertBefore` with a detached reference node) is modelled
  by the `caught` flag of `FinishOutcome`, mirroring the `try/catch` in
  `_finishDragging`.
* `Column` (`Column.ts`): the internal card `Map` is modelled as an
  association list with JS `Map.set` semantics (update in place, else append),
  so iteration order is insertion order, as in JS.
-/

namespace Kanban

/-- A card record as persisted (`ICardData`). -/
structure ICardData where
  id : String
  title : String
  text : String
  columnId : String
deriving DecidableEq, Repr

/-- A column record as persisted (`IColumnData`). -/
structure IColumnData where
  id : String
  title : String
  cards : List ICardData
deriving DecidableEq, Repr

/-- The persistent store: the JSON-serialized array of column records. -/
abbrev Store := List IColumnData

namespace StorageService

/-- `StorageService.getColumn`: first record whose id matches, or null. -/
def getColumn (store : Store) (columnId : String) : Option IColumnData :=
  store.find? (fun col => col.id == columnId)

/-- `StorageService.saveColumn`: replace the first record with the same id
(JS `findIndex` + `data[i] = columnData`), else push at the end. -/
def saveColumn (store : Store) (columnData : IColumnData) : Store :=
  match store with
  | [] => [columnData]
  | col :: rest =>
    if col.id == columnData.id then columnData :: rest
    else col :: saveColumn rest columnData

/-- `StorageService.addCardToColumn`: fetch the column record (or create
`{id, title: '', cards: []}`), push the card, save. -/
def addCardToColumn (store : Store) (columnId : String) (cardData : ICardData) :
    Store :=
  let column :=
    match getColumn store columnId with
    | some c => c
    | none => { id := columnId, title := "", cards := [] }
  saveColumn store { column with cards := column.cards ++ [cardData] }

end StorageService

open StorageService

/-! ## DOM and geometry model for the drag engine -/

/-- A child of a column's `.board__card-list`: either a card `li` (identified
by its DOM id) or the placeholder `li` created by `_createPlaceholder`. -/
inductive Node where
  | card (id : String)
  | placeholder
deriving DecidableEq, Repr

/-- A `.board__column` element: its DOM id and the children of its card list. -/
structure ColumnDom where
  id : String
  nodes : List Node
deriving DecidableEq, Repr

/-- The board's columns, in document order. -/
abbrev Dom := List ColumnDom

/-- A bounding client rect (the fields the engine reads). -/
structure Rect where
  top : ℚ
  left : ℚ
  width : ℚ
  height : ℚ
deriving DecidableEq, Repr

/-- Geometry oracle: `getBoundingClientRect` for a card id. -/
abbrev Geometry := String → Rect

/-- The vertical midpoint `rect.top + rect.height / 2` tested in
`_updatePlaceholderPosition`. -/
def Rect.midY (r : Rect) : ℚ := r.top + r.height / 2

/-- `closest('.board__column')` resolution: first column with the given id. -/
def findColumn (dom : Dom) (colId : String) : Option ColumnDom :=
  dom.find? (fun c => c.id == colId)

/-- Replace the card-list children of the column with the given id. -/
def setColumnNodes (dom : Dom) (colId : String) (nodes : List Node) : Dom :=
  dom.map (fun c => if c.id == colId then { c with nodes := nodes } else c)

/-- `node.remove()` for the (unique) placeholder: erase it from every column. -/
def removePlaceholderDom (dom : Dom) : Dom :=
  dom.map (fun c => { c with nodes := c.nodes.erase Node.placeholder })

/-- `draggedElement.remove()`: erase the card from whichever column holds it. -/
def removeCardDom (dom : Dom) (cardId : String) : Dom :=
  dom.map (fun c => { c with nodes := c.nodes.erase (Node.card cardId) })

/-- `parent.insertBefore(newNode, ref)` when `ref` is a child: insert directly
before the first occurrence of `ref` (children are distinct DOM nodes). -/
def insertBeforeNode (l : List Node) (newNode ref : Node) : List Node :=
  match l with
  | [] => []
  | y :: rest =>
    if y == ref then newNode :: y :: rest else y :: insertBeforeNode rest newNode ref

/-- JS `Array.prototype.indexOf`: index of the first occurrence, else `-1`. -/
def jsIndexOf {α : Type} [BEq α] (l : List α) (x : α) : Int :=
  match l with
  | [] => -1
  | y :: rest =>
    if y == x then 0
    else
      let r := jsIndexOf rest x
      if r == -1 then -1 else r + 1

/-- JS `arr.splice(start, 0, x)` as a pure insertion: a negative `start`
counts from the end (clamped at 0), a `start` past the end appends. -/
def spliceInsert {α : Type} (l : List α) (start : Int) (x : α) : List α :=
  let i : Nat := if start < 0 then ((l.length : Int) + start).toNat
                 else min start.toNat l.length
  l.take i ++ [x] ++ l.drop i

/-- The card ids among a card list's children, in visual order
(`querySelectorAll('.board__card')`; the placeholder has a different class). -/
def cardIds (nodes : List Node) : List String :=
  nodes.filterMap (fun n => match n with
    | Node.card i => some i
    | Node.placeholder => none)

/-- `querySelectorAll('.board__card:not(#draggedId)')`: all cards except the
dragged one, in visual order. -/
def cardsExcluding (nodes : List Node) (draggedId : String) : List String :=
  nodes.filterMap (fun n => match n with
    | Node.card i => if i == draggedId then none else some i
    | Node.placeholder => none)

/-- Card ids of the column with the given id (empty if the column is absent). -/
def columnCardIds (dom : Dom) (colId : String) : List String :=
  match findColumn dom colId with
  | some c => cardIds c.nodes
  | none => []

/-! ## `DropAndDragService` state and handlers -/

/-- The transient `IDragState` held by `DropAndDragService`. DOM references
become ids (`draggedElement`, `originalColumn`, `currentColumn`); the
placeholder reference is tracked as `Option Unit` (the node itself lives in
the `Dom` once inserted). -/
structure DragState where
  isDragging : Bool
  draggedElement : Option String
  placeholder : Option Unit
  originalColumn : Option String
  originalColumnId : String
  originalIndex : Int
  currentColumn : Option String
  originalWidth : ℚ
  offsetX : ℚ
  offsetY : ℚ
deriving DecidableEq, Repr

/-- The initial/reset `_dragState` value (constructor and `_cleanup`). -/
def initialDragState : DragState :=
  { isDragging := false, draggedElement := none, placeholder := none,
    originalColumn := none, originalColumnId := "", originalIndex := -1,
    currentColumn := none, originalWidth := 0, offsetX := 0, offsetY := 0 }

/-- The full mutable world the engine touches: its drag state, the board DOM
and the persistent store. -/
structure EngineState where
  drag : DragState
  dom : Dom
  store : Store
deriving DecidableEq, Repr

/-- `_updatePlaceholderPosition(event)`: look up the current column's card
list; remove the placeholder from wherever it sits; scan the column's cards
(excluding the dragged one) in visual order for the first whose vertical
midpoint lies below `clientY`; insert the placeholder immediately before it,
or append it at the end when none qualifies. -/
def updatePlaceholderPosition (geo : Geometry) (clientY : ℚ)
    (curColId draggedId : String) (dom : Dom) : Dom :=
  match findColumn dom curColId with
  | none => dom
  | some col =>
    let dom1 := removePlaceholderDom dom
    let nodes1 := col.nodes.erase Node.placeholder
    let cards := cardsExcluding nodes1 draggedId
    let insertBeforeElement := cards.find? (fun cid => clientY < (geo cid).midY)
    let newNodes :=
      match insertBeforeElement with
      | none => nodes1 ++ [Node.placeholder]
      | some cid => insertBeforeNode nodes1 Node.placeholder (Node.card cid)
    setColumnNodes dom1 curColId newNodes

/-- The `newIndex` computation of `_finishDragging`: the placeholder's index
among `targetCardList.children` when its parent is that list, else the `-1`
sentinel. Run before any node is removed. -/
def computeNewIndex (cardsInList : List Node) : Int :=
  if Node.placeholder ∈ cardsInList then jsIndexOf cardsInList Node.placeholder
  else -1

/-- The fallback `newIndex` recomputation inside `_updateLocalStorage` for an
intra-column move whose `newIndex` is the sentinel: start from the (spliced)
record list's length, then, if the current column and placeholder exist, take
the placeholder's index among the card list's children unless it is `-1`. -/
def fallbackIndex (curCol : Option String) (placeholderRef : Bool) (dom : Dom)
    (remainingLen : Nat) : Int :=
  match curCol, placeholderRef with
  | some cc, true =>
    match findColumn dom cc with
    | none => remainingLen
    | some col =>
      let idx := jsIndexOf col.nodes Node.placeholder
      if idx == -1 then (remainingLen : Int) else idx
  | _, _ => remainingLen

/-- JS `cards.splice(cardIndex, 1)` after `findIndex(card => card.id === id)`:
remove the first card record with the given id. -/
def removeFirstCard (cards : List ICardData) (cardId : String) : List ICardData :=
  match cards with
  | [] => []
  | c :: rest => if c.id == cardId then rest else c :: removeFirstCard rest cardId

/-- `_updateLocalStorage(targetColumnId, newIndex)`: fetch the origin record,
splice out the dragged card's record; intra-column, re-splice it at
`newIndex` (recomputing via `fallbackIndex` when the sentinel was passed) and
save; cross-column, save the origin record, retarget the card's `columnId`,
fetch-or-create the target record, clamp `newIndex` into its length, splice
the card in and save the target. -/
def updateLocalStorage (draggedId : Option String) (origColId : String)
    (curCol : Option String) (placeholderRef : Bool) (dom : Dom)
    (targetColumnId : String) (newIndex : Int) (store : Store) : Store :=
  match draggedId with
  | none => store
  | some cardId =>
    match getColumn store origColId with
    | none => store
    | some originalColumnData =>
      match originalColumnData.cards.find? (fun c => c.id == cardId) with
      | none => store
      | some cardData =>
        let remaining := removeFirstCard originalColumnData.cards cardId
        if origColId == targetColumnId then
          let idx : Int :=
            if newIndex == -1 then
              fallbackIndex curCol placeholderRef dom remaining.length
            else newIndex
          saveColumn store
            { originalColumnData with cards := spliceInsert remaining idx cardData }
        else
          let store1 := saveColumn store { originalColumnData with cards := remaining }
          let cardData1 := { cardData with columnId := targetColumnId }
          let targetColumnData :=
            (getColumn store1 targetColumnId).getD
              { id := targetColumnId, title := "", cards := [] }
          let idx : Int :=
            if newIndex == -1 ∨ (targetColumnData.cards.length : Int) < newIndex then
              (targetColumnData.cards.length : Int)
            else newIndex
          saveColumn store1
            { targetColumnData with cards := spliceInsert targetColumnData.cards idx cardData1 }

/-- Result of `_finishDragging`: the DOM and store after its `try` block, and
whether an exception was caught (and logged) by its `catch`. The only
throwing operation in the block is `insertBefore` with a placeholder that is
not a child of the target card list (DOM `NotFoundError`); at that point the
dragged card has already been removed, so the partial DOM mutation is kept,
exactly as the `catch` leaves it. -/
structure FinishOutcome where
  dom : Dom
  store : Store
  caught : Bool
deriving DecidableEq, Repr

/-- `_finishDragging()`: guard on the dragged element, placeholder and current
column; look up the target card list; compute `newIndex` from the children
*before* removing anything; remove the dragged card; insert it before the
placeholder (throwing — caught and logged — if the placeholder is not a child
of the target list); then update the store with the computed `newIndex`. -/
def finishDragging (drag : DragState) (dom : Dom) (store : Store) : FinishOutcome :=
  match drag.draggedElement, drag.placeholder, drag.currentColumn with
  | some draggedId, some _, some curColId =>
    (match findColumn dom curColId with
     | none => ⟨dom, store, false⟩
     | some targetCol =>
       let targetColumnId := curColId
       let newIndex := computeNewIndex targetCol.nodes
       let dom1 := removeCardDom dom draggedId
       let targetNodes := targetCol.nodes.erase (Node.card draggedId)
       if Node.placeholder ∈ targetNodes then
         let dom2 := setColumnNodes dom1 curColId
           (insertBeforeNode targetNodes (Node.card draggedId) Node.placeholder)
         let store1 := updateLocalStorage (some draggedId) drag.originalColumnId
           drag.currentColumn drag.placeholder.isSome dom2 targetColumnId newIndex store
         ⟨dom2, store1, false⟩
       else ⟨dom1, store, true⟩)
  | _, _, _ => ⟨dom, store, false⟩

/-- `_cleanup()`: remove the placeholder from the DOM (when the reference is
set), drop the visual styles (not modelled) and reset `_dragState` to the
initial value. -/
def cleanup (s : EngineState) : EngineState :=
  { drag := initialDragState,
    dom := if s.drag.placeholder.isSome then removePlaceholderDom s.dom else s.dom,
    store := s.store }

/-- `_handleMouseUp(event)`: ignore the event unless a drag is in progress;
otherwise run `_finishDragging` (whose failures are caught internally) and
then `_cleanup`. -/
def handleMouseUp (s : EngineState) : EngineState :=
  if s.drag.isDragging = false then s
  else
    let r := finishDragging s.drag s.dom s.store
    cleanup { drag := s.drag, dom := r.dom, store := r.store }

/-- The data `_handleMouseMove` reads from its event: the pointer position and
the column resolved by `document.elementFromPoint(...)?.closest('.board__column')`. -/
structure MouseMoveEvent where
  clientX : ℚ
  clientY : ℚ
  underCursorColumn : Option String
deriving Repr

/-- `_handleMouseMove(event)`: ignore the event unless a drag is in progress
with a dragged element; reposition the dragged card (style only); if a column
is under the cursor, make it `currentColumn` and recompute the placeholder
position there. -/
def handleMouseMove (geo : Geometry) (e : MouseMoveEvent) (s : EngineState) :
    EngineState :=
  if s.drag.isDragging = false ∨ s.drag.draggedElement = none then s
  else
    match e.underCursorColumn with
    | none => s
    | some newCol =>
      let drag := { s.drag with currentColumn := some newCol }
      let dom :=
        match drag.currentColumn, drag.placeholder, drag.draggedElement with
        | some cc, some _, some dId => updatePlaceholderPosition geo e.clientY cc dId s.dom
        | _, _, _ => s.dom
      { s with drag := drag, dom := dom }

/-- The data `_handleMouseDown` reads from its event: the button, whether the
target sits inside a card's delete control, the card resolved by
`closest('.board__card')`, and the pointer position. -/
structure MouseDownEvent where
  button : Nat
  onDeleteBtn : Bool
  targetCard : Option String
  clientX : ℚ
  clientY : ℚ
deriving Repr

/-- `closest('.board__column')` from a card: the column whose card list holds
it. -/
def findColumnOfCard (dom : Dom) (cardId : String) : Option ColumnDom :=
  dom.find? (fun c => Node.card cardId ∈ c.nodes)

/-- `_handleMouseDown(event)`: guard on the primary button, the delete control
and the card/column lookups; capture the full drag state (origin column, the
card's index among the column's cards, grab geometry); then
`_applyDragStyles`, whose last step initialises the placeholder position with
pointer coordinates `(0, 0)`. -/
def handleMouseDown (geo : Geometry) (e : MouseDownEvent) (s : EngineState) :
    EngineState :=
  if e.button ≠ 0 then s
  else if e.onDeleteBtn then s
  else
    match e.targetCard with
    | none => s
    | some cardId =>
      match findColumnOfCard s.dom cardId with
      | none => s
      | some column =>
        let rect := geo cardId
        let drag : DragState :=
          { isDragging := true,
            draggedElement := some cardId,
            placeholder := some (),
            originalColumn := some column.id,
            originalColumnId := column.id,
            originalIndex := jsIndexOf (cardIds column.nodes) cardId,
            currentColumn := some column.id,
            originalWidth := rect.width,
            offsetX := e.clientX - rect.left,
            offsetY := e.clientY - rect.top }
        let dom := updatePlaceholderPosition geo 0 column.id cardId s.dom
        { drag := drag, dom := dom, store := s.store }

/-- The spec's DragState invariant: dragging iff a dragged element is held. -/
def dragStateInv (d : DragState) : Prop :=
  d.isDragging = true ↔ d.draggedElement ≠ none

/-! ## C1: intra-column reconciliation, store order vs visual order -/

/-- Concrete geometry for the C1 gesture: card midpoints 10, 20, 30, 40. -/
def c1Geometry : Geometry := fun cid =>
  if cid = "A" then ⟨10, 0, 0, 0⟩
  else if cid = "d" then ⟨20, 0, 0, 0⟩
  else if cid = "B" then ⟨30, 0, 0, 0⟩
  else ⟨40, 0, 0, 0⟩

/-- Board with one column `c` holding cards `A, d, B, C`, store matching the
visual order. -/
def c1Start : EngineState :=
  { drag := initialDragState,
    dom := [⟨"c", [Node.card "A", Node.card "d", Node.card "B", Node.card "C"]⟩],
    store := [⟨"c", "t", [⟨"A", "", "", "c"⟩, ⟨"d", "", "", "c"⟩,
                          ⟨"B", "", "", "c"⟩, ⟨"C", "", "", "c"⟩]⟩] }

/-- The C1 gesture: grab card `d`, move the pointer between `B`'s and `C`'s
midpoints (placing the placeholder between them), release. -/
def c1End : EngineState :=
  handleMouseUp (handleMouseMove c1Geometry ⟨5, 35, some "c"⟩
    (handleMouseDown c1Geometry ⟨0, false, some "d", 5, 22⟩ c1Start))

/-! ## C8: `Column` reload round-trip -/

/-- The value `Column` keeps per card in its internal `Map`. -/
structure CardInfo where
  title : String
  text : String
deriving DecidableEq, Repr

/-- A JS `Map<string, CardInfo>`: an association list with `Map.set`
semantics — setting an existing key updates the value in place (keeping the
key's insertion position), setting a new key appends. `forEach` iterates in
this insertion order. -/
abbrev JsMap := List (String × CardInfo)

/-- JS `Map.prototype.set`. -/
def mapSet (m : JsMap) (k : String) (v : CardInfo) : JsMap :=
  if m.any (fun p => p.1 == k) then
    m.map (fun p => if p.1 == k then (k, v) else p)
  else m ++ [(k, v)]

/-- `Column._loadCardsFromStorage`: starting from the fresh empty `Map` of the
constructor, if the stored record exists and has cards, `set` each of them in
stored order. -/
def loadCardsFromStorage (stored : Option IColumnData) : JsMap :=
  match stored with
  | none => []
  | some columnData =>
    if columnData.cards.length > 0 then
      columnData.cards.foldl (fun m c => mapSet m c.id ⟨c.title, c.text⟩) []
    else []

/-- `Column._createCardListElement` / `Column.refreshColumnDOM`: the ids of
the card elements rendered from the `Map`, in `forEach` order. -/
def renderedCardIds (m : JsMap) : List String := m.map (fun p => p.1)

/-! ## Lemmas about the Persistent Store primitives -/

namespace StorageService

theorem getColumn_cons (c : IColumnData) (s : Store) (a : String) :
    getColumn (c :: s) a = if c.id == a then some c else getColumn s a := by
  simp only [getColumn, List.find?]
  cases h : c.id == a <;> simp [h]

theorem getColumn_eq_some_id {s : Store} {a : String} {r : IColumnData}
    (h : getColumn s a = some r) : r.id = a := by
  have := List.find?_some h
  exact eq_of_beq this

theorem getColumn_saveColumn_self (s : Store) (r : IColumnData) :
    getColumn (saveColumn s r) r.id = some r := by
  induction s with
  | nil => simp [saveColumn, getColumn, List.find?]
  | cons c rest ih =>
    by_cases h : c.id = r.id
    · simp [saveColumn, h, getColumn_cons]
    · have hb : (c.id == r.id) = false := by simp [h]
      simp [saveColumn, hb, getColumn_cons, ih]

theorem getColumn_saveColumn_other (s : Store) (r : IColumnData) {a : String}
    (h : a ≠ r.id) : getColumn (saveColumn s r) a = getColumn s a := by
  induction s with
  | nil =>
    have hb : (r.id == a) = false := by simp [Ne.symm h]
    simp [saveColumn, getColumn, List.find?, hb]
  | cons c rest ih =>
    by_cases hc : c.id = r.id
    · have hb : (r.id == a) = false := by simp [Ne.symm h]
      have hcb : (c.id == a) = false := by simp [hc, Ne.symm h]
      simp [saveColumn, hc, getColumn_cons, hb, hcb]
    · have hcb : (c.id == r.id) = false := by simp [hc]
      cases hca : c.id == a with
      | true => simp [saveColumn, hcb, getColumn_cons, hca]
      | false => simp [saveColumn, hcb, getColumn_cons, hca, ih]

theorem saveColumn_of_getColumn_none {s : Store} {r : IColumnData}
    (h : getColumn s r.id = none) : saveColumn s r = s ++ [r] := by
  induction s with
  | nil => simp [saveColumn]
  | cons c rest ih =>
    rw [getColumn_cons] at h
    cases hc : c.id == r.id with
    | true => simp [hc] at h
    | false =>
      simp only [hc, if_neg Bool.false_ne_true, Bool.false_eq_true, if_false] at h
      simp [saveColumn, hc, ih h]

end StorageService

/-- C10: `StorageService.addCardToColumn` appends the card at the end of the
existing record's list (preserving the cards already there and their order);
if no record exists for `columnId` it appends a fresh record with that id,
an empty title and the single card; and lookups of every other column id
are unchanged. -/
theorem addCardToColumn_spec (store : Store) (cid : String) (card : ICardData) :
    (∀ rec : IColumnData, getColumn store cid = some rec →
      getColumn (addCardToColumn store cid card) cid =
        some { rec with cards := rec.cards ++ [card] }) ∧
    (getColumn store cid = none →
      addCardToColumn store cid card =
        store ++ [{ id := cid, title := "", cards := [card] }]) ∧
    (∀ other : String, other ≠ cid →
      getColumn (addCardToColumn store cid card) other = getColumn store other) := by
  refine ⟨?_, ?_, ?_⟩
  · intro rec hrec
    have hid : rec.id = cid := getColumn_eq_some_id hrec
    unfold addCardToColumn
    rw [hrec]
    have := getColumn_saveColumn_self store { rec with cards := rec.cards ++ [card] }
    simpa [hid] using this
  · intro hnone
    unfold addCardToColumn
    rw [hnone]
    exact saveColumn_of_getColumn_none (by simpa using hnone)
  · intro other hother
    unfold addCardToColumn
    cases hrec : getColumn store cid with
    | some rec =>
      have hid : rec.id = cid := getColumn_eq_some_id hrec
      exact getColumn_saveColumn_other _ _ (by simpa [hid] using hother)
    | none =>
      exact getColumn_saveColumn_other _ _ (by simpa using hother)

/-- Witness for `addCardToColumn_spec` at a concrete store. -/
theorem addCardToColumn_spec_witness :
    getColumn ([⟨"todo", "t", [⟨"a", "", "", "todo"⟩]⟩] : Store) "todo" =
        some ⟨"todo", "t", [⟨"a", "", "", "todo"⟩]⟩ ∧
      getColumn (addCardToColumn [⟨"todo", "t", [⟨"a", "", "", "todo"⟩]⟩] "todo"
          ⟨"b", "", "", "todo"⟩) "todo" =
        some ⟨"todo", "t", [⟨"a", "", "", "todo"⟩, ⟨"b", "", "", "todo"⟩]⟩ ∧
      getColumn (addCardToColumn [⟨"todo", "t", [⟨"a", "", "", "todo"⟩]⟩] "todo"
          ⟨"b", "", "", "todo"⟩) "done" =
        getColumn ([⟨"todo", "t", [⟨"a", "", "", "todo"⟩]⟩] : Store) "done" :=
  ⟨by decide,
   (addCardToColumn_spec [⟨"todo", "t", [⟨"a", "", "", "todo"⟩]⟩] "todo"
      ⟨"b", "", "", "todo"⟩).1 ⟨"todo", "t", [⟨"a", "", "", "todo"⟩]⟩ (by decide),
   (addCardToColumn_spec [⟨"todo", "t", [⟨"a", "", "", "todo"⟩]⟩] "todo"
      ⟨"b", "", "", "todo"⟩).2.2 "done" (by decide)⟩

/-! ## Theorems about the gesture state machine -/

/-- C6: the invariant `isDragging == true` iff `draggedElement != none` holds
in the initial state and is preserved by every engine handler: pointer-down,
pointer-move, pointer-up and cleanup. -/
theorem dragState_invariant_preserved :
    dragStateInv initialDragState ∧
    ∀ (geo : Geometry) (e1 : MouseDownEvent) (e2 : MouseMoveEvent)
      (s : EngineState), dragStateInv s.drag →
      dragStateInv (handleMouseDown geo e1 s).drag ∧
      dragStateInv (handleMouseMove geo e2 s).drag ∧
      dragStateInv (handleMouseUp s).drag ∧
      dragStateInv (cleanup s).drag := by
  constructor
  · simp [dragStateInv, initialDragState]
  · intro geo e1 e2 s hs
    refine ⟨?_, ?_, ?_, ?_⟩
    · unfold handleMouseDown
      split
      · exact hs
      · split
        · exact hs
        · split
          · exact hs
          · split
            · exact hs
            · simp [dragStateInv]
    · unfold handleMouseMove
      split
      · exact hs
      · split
        · exact hs
        · simpa [dragStateInv] using hs
    · unfold handleMouseUp
      split
      · exact hs
      · simp [cleanup, dragStateInv, initialDragState]
    · simp [cleanup, dragStateInv, initialDragState]

/-- Witness for `dragState_invariant_preserved` at a concrete state/events. -/
theorem dragState_invariant_preserved_witness :
    dragStateInv initialDragState ∧
    (dragStateInv
      (handleMouseDown (fun _ => ⟨0, 0, 0, 0⟩) ⟨0, false, some "a", 1, 2⟩
        ⟨initialDragState, [⟨"c", [Node.card "a"]⟩], []⟩).drag ∧
     dragStateInv
      (handleMouseMove (fun _ => ⟨0, 0, 0, 0⟩) ⟨1, 2, some "c"⟩
        ⟨initialDragState, [⟨"c", [Node.card "a"]⟩], []⟩).drag ∧
     dragStateInv (handleMouseUp ⟨initialDragState, [⟨"c", [Node.card "a"]⟩], []⟩).drag ∧
     dragStateInv (cleanup ⟨initialDragState, [⟨"c", [Node.card "a"]⟩], []⟩).drag) :=
  ⟨dragState_invariant_preserved.1,
   dragState_invariant_preserved.2 (fun _ => ⟨0, 0, 0, 0⟩) ⟨0, false, some "a", 1, 2⟩
     ⟨1, 2, some "c"⟩ ⟨initialDragState, [⟨"c", [Node.card "a"]⟩], []⟩
     (by simp [dragStateInv, initialDragState])⟩

/-- C7: a pointer-move or pointer-up received while no drag is in progress
leaves the whole engine state — DragState, DOM and store — unchanged. -/
theorem idle_move_up_no_mutation (geo : Geometry) (e2 : MouseMoveEvent)
    (s : EngineState) (h : s.drag.isDragging = false) :
    handleMouseMove geo e2 s = s ∧ handleMouseUp s = s := by
  constructor
  · unfold handleMouseMove
    rw [if_pos (Or.inl h)]
  · unfold handleMouseUp
    rw [if_pos h]

/-- Witness for `idle_move_up_no_mutation` at a concrete idle state. -/
theorem idle_move_up_no_mutation_witness :
    (⟨initialDragState, [⟨"c", [Node.card "a"]⟩], []⟩ : EngineState).drag.isDragging
        = false ∧
      handleMouseMove (fun _ => ⟨0, 0, 0, 0⟩) ⟨3, 4, some "c"⟩
        ⟨initialDragState, [⟨"c", [Node.card "a"]⟩], []⟩ =
        ⟨initialDragState, [⟨"c", [Node.card "a"]⟩], []⟩ ∧
      handleMouseUp ⟨initialDragState, [⟨"c", [Node.card "a"]⟩], []⟩ =
        ⟨initialDragState, [⟨"c", [Node.card "a"]⟩], []⟩ :=
  ⟨by decide,
   (idle_move_up_no_mutation (fun _ => ⟨0, 0, 0, 0⟩) ⟨3, 4, some "c"⟩
     ⟨initialDragState, [⟨"c", [Node.card "a"]⟩], []⟩ (by decide)).1,
   (idle_move_up_no_mutation (fun _ => ⟨0, 0, 0, 0⟩) ⟨3, 4, some "c"⟩
     ⟨initialDragState, [⟨"c", [Node.card "a"]⟩], []⟩ (by decide)).2⟩

/-- C5: every pointer-up received while a drag is in progress resets the
DragState to the initial (idle) value, and this reset also happens whenever
the reconciliation catches an exception — `finishDragging` is total and
reports a caught exception only through its `caught` flag, which
`handleMouseUp` ignores. -/
theorem mouseUp_always_resets_drag_state (s : EngineState)
    (h : s.drag.isDragging = true) :
    (handleMouseUp s).drag = initialDragState ∧
    ((finishDragging s.drag s.dom s.store).caught = true →
      (handleMouseUp s).drag = initialDragState) := by
  have hreset : (handleMouseUp s).drag = initialDragState := by
    unfold handleMouseUp
    rw [h]
    simp [cleanup]
  exact ⟨hreset, fun _ => hreset⟩

/-- Witness for `mouseUp_always_resets_drag_state` at a state whose
reconciliation actually catches an exception (the placeholder reference is
set but the placeholder node is not in the target card list, so
`insertBefore` throws). -/
theorem mouseUp_always_resets_drag_state_witness :
    (⟨⟨true, some "d", some (), some "c", "c", 0, some "c", 0, 0, 0⟩,
        [⟨"c", [Node.card "d"]⟩], []⟩ : EngineState).drag.isDragging = true ∧
      (finishDragging ⟨true, some "d", some (), some "c", "c", 0, some "c", 0, 0, 0⟩
        [⟨"c", [Node.card "d"]⟩] []).caught = true ∧
      (handleMouseUp ⟨⟨true, some "d", some (), some "c", "c", 0, some "c", 0, 0, 0⟩,
        [⟨"c", [Node.card "d"]⟩], []⟩).drag = initialDragState :=
  ⟨by decide, by decide,
   (mouseUp_always_resets_drag_state
     ⟨⟨true, some "d", some (), some "c", "c", 0, some "c", 0, 0, 0⟩,
       [⟨"c", [Node.card "d"]⟩], []⟩ (by decide)).1⟩

/-- C1 (failing input): after a drag of `d` that starts and ends in column
`c`, the visual order is `A, B, d, C` but the Persistent Store holds
`A, B, C, d` — `newIndex` was taken from a child list still containing the
dragged card, while the store splice happens on a list without it. The card
id set is preserved, so only the order diverges. -/
theorem intraColumn_store_visual_mismatch :
    columnCardIds c1End.dom "c" = ["A", "B", "d", "C"] ∧
    (getColumn c1End.store "c").map (fun r => r.cards.map (fun c => c.id)) =
      some ["A", "B", "C", "d"] ∧
    columnCardIds c1End.dom "c" ≠ ["A", "B", "C", "d"] := by
  refine ⟨?_, ?_, ?_⟩ <;>
    norm_num +decide [c1End, c1Start, c1Geometry, handleMouseDown, handleMouseMove,
      handleMouseUp, findColumnOfCard, findColumn, updatePlaceholderPosition,
      removePlaceholderDom, setColumnNodes, cardsExcluding, Rect.midY, finishDragging,
      computeNewIndex, jsIndexOf, removeCardDom, insertBeforeNode, cleanup,
      columnCardIds, cardIds, initialDragState, updateLocalStorage,
      StorageService.getColumn, StorageService.saveColumn, removeFirstCard,
      spliceInsert, fallbackIndex, List.find?, List.erase, List.filterMap]

/-! ## List lemmas about the store reconciliation primitives -/

theorem find?_id_eq_some_of_mem {cards : List ICardData} {cid : String}
    (h : cid ∈ cards.map (fun c => c.id)) :
    ∃ cardData, cards.find? (fun c => c.id == cid) = some cardData ∧
      cardData.id = cid := by
  induction cards with
  | nil => simp at h
  | cons c rest ih =>
    by_cases hc : c.id = cid
    · exact ⟨c, by simp [List.find?, hc], hc⟩
    · have : cid ∈ rest.map (fun c => c.id) := by
        simpa [Ne.symm hc] using h
      obtain ⟨d, hd, hid⟩ := ih this
      refine ⟨d, ?_, hid⟩
      have hcb : (c.id == cid) = false := by simp [hc]
      simp [List.find?, hcb, hd]

theorem removeFirstCard_length {cards : List ICardData} {cid : String}
    (h : cid ∈ cards.map (fun c => c.id)) :
    (removeFirstCard cards cid).length + 1 = cards.length := by
  induction cards with
  | nil => simp at h
  | cons c rest ih =>
    by_cases hc : c.id = cid
    · simp [removeFirstCard, hc]
    · have hcb : (c.id == cid) = false := by simp [hc]
      have : cid ∈ rest.map (fun c => c.id) := by simpa [Ne.symm hc] using h
      simp only [removeFirstCard, hcb, Bool.false_eq_true, if_false, List.length_cons]
      have := ih this
      omega

theorem removeFirstCard_count {cards : List ICardData} {cid : String}
    (h : cid ∈ cards.map (fun c => c.id)) :
    ((removeFirstCard cards cid).map (fun c => c.id)).count cid + 1 =
      (cards.map (fun c => c.id)).count cid := by
  induction cards with
  | nil => simp at h
  | cons c rest ih
  => by_cases hc : c.id = cid
     · simp [removeFirstCard, hc]
     · have hcb : (c.id == cid) = false := by simp [hc]
       have hm : cid ∈ rest.map (fun c => c.id) := by simpa [Ne.symm hc] using h
       simp [removeFirstCard, hcb, List.count_cons, hc, ih hm]

theorem spliceInsert_map {α β : Type} (f : α → β) (l : List α) (i : Int) (x : α) :
    (spliceInsert l i x).map f = spliceInsert (l.map f) i (f x) := by
  simp [spliceInsert, List.map_take, List.map_drop]

theorem spliceInsert_length {α : Type} (l : List α) (i : Int) (x : α) :
    (spliceInsert l i x).length = l.length + 1 := by
  simp only [spliceInsert, List.length_append, List.length_take, List.length_drop,
    List.length_cons, List.length_nil]
  omega

theorem spliceInsert_count {α : Type} [BEq α] (l : List α) (i : Int) (x y : α) :
    (spliceInsert l i x).count y = l.count y + [x].count y := by
  have h : l.count y =
      ((l.take (if i < 0 then ((l.length : Int) + i).toNat
                else min i.toNat l.length)).count y) +
      ((l.drop (if i < 0 then ((l.length : Int) + i).toNat
                else min i.toNat l.length)).count y) := by
    conv_lhs => rw [← List.take_append_drop
      (if i < 0 then ((l.length : Int) + i).toNat else min i.toNat l.length) l]
    rw [List.count_append]
  simp only [spliceInsert, List.count_append, h]
  omega

theorem mem_spliceInsert {α : Type} {l : List α} {i : Int} {x y : α}
    (h : y ∈ spliceInsert l i x) : y ∈ l ∨ y = x := by
  simp only [spliceInsert, List.mem_append, List.mem_cons, List.not_mem_nil,
    or_false] at h
  rcases h with (h | h) | h
  · exact Or.inl (List.mem_of_mem_take h)
  · exact Or.inr h
  · exact Or.inl (List.mem_of_mem_drop h)

theorem spliceInsert_at_length {α : Type} (l : List α) (x : α) :
    spliceInsert l (l.length : Int) x = l ++ [x] := by
  have h : ¬ ((l.length : Int) < 0) := by omega
  simp [spliceInsert, h, Int.toNat_natCast]

/-- C2: for a drag that moves a card from column A to a different column B —
where A's stored list holds the card id exactly once and B's stored list (if
any) does not hold it — the reconciliation's store update leaves A's list
without the card id, B's list holding it exactly once with the moved record's
`columnId` equal to B's id, B's list longer by exactly 1 and A's shorter by
exactly 1. -/
theorem crossColumnMove_spec (store : Store) (dom : Dom) (curCol : Option String)
    (ph : Bool) (aId bId cardId : String) (newIndex : Int) (recA : IColumnData)
    (hne : aId ≠ bId)
    (hA : getColumn store aId = some recA)
    (honce : (recA.cards.map (fun c => c.id)).count cardId = 1)
    (hB : ∀ recB, getColumn store bId = some recB →
      cardId ∉ recB.cards.map (fun c => c.id)) :
    ∃ recA' recB',
      getColumn (updateLocalStorage (some cardId) aId curCol ph dom bId newIndex store)
        aId = some recA' ∧
      getColumn (updateLocalStorage (some cardId) aId curCol ph dom bId newIndex store)
        bId = some recB' ∧
      cardId ∉ recA'.cards.map (fun c => c.id) ∧
      (recB'.cards.map (fun c => c.id)).count cardId = 1 ∧
      (∀ c ∈ recB'.cards, c.id = cardId → c.columnId = bId) ∧
      recB'.cards.length =
        ((getColumn store bId).map (fun r => r.cards.length)).getD 0 + 1 ∧
      recA'.cards.length + 1 = recA.cards.length := by
  have hmem : cardId ∈ recA.cards.map (fun c => c.id) := by
    have : 0 < (recA.cards.map (fun c => c.id)).count cardId := by omega
    exact List.count_pos_iff.mp this
  obtain ⟨cardData, hfind, hcid⟩ := find?_id_eq_some_of_mem hmem
  have hAid : recA.id = aId := getColumn_eq_some_id hA
  have hne' : (aId == bId) = false := by simp [hne]
  have hremcount : ((removeFirstCard recA.cards cardId).map (fun c => c.id)).count
      cardId = 0 := by
    have := removeFirstCard_count hmem
    omega
  have hremnotmem : cardId ∉ (removeFirstCard recA.cards cardId).map (fun c => c.id) :=
    List.count_eq_zero.mp hremcount
  set recA' : IColumnData := { recA with cards := removeFirstCard recA.cards cardId }
    with hrecA'
  have hstep : updateLocalStorage (some cardId) aId curCol ph dom bId newIndex store =
      (let store1 := saveColumn store recA'
       let cardData1 := { cardData with columnId := bId }
       let target := (getColumn store1 bId).getD { id := bId, title := "", cards := [] }
       let idx : Int := if newIndex == -1 ∨ ((target.cards.length : Int) < newIndex)
                        then (target.cards.length : Int) else newIndex
       saveColumn store1 { target with cards := spliceInsert target.cards idx cardData1 }) := by
    simp only [updateLocalStorage, hA, hfind, hne', Bool.false_eq_true, if_false]
  rw [hstep]
  have hg1 : getColumn (saveColumn store recA') bId = getColumn store bId := by
    refine getColumn_saveColumn_other store recA' ?_
    simp only [hrecA']
    simpa [hAid] using Ne.symm hne
  have hgA1 : getColumn (saveColumn store recA') aId = some recA' := by
    have := getColumn_saveColumn_self store recA'
    simpa [hrecA', hAid] using this
  simp only [hg1]
  set target : IColumnData :=
    (getColumn store bId).getD { id := bId, title := "", cards := [] } with htarget
  have htargetId : target.id = bId := by
    rw [htarget]
    cases hBrec : getColumn store bId with
    | some recB => simpa using getColumn_eq_some_id hBrec
    | none => simp
  have htargetCount : cardId ∉ target.cards.map (fun c => c.id) := by
    rw [htarget]
    cases hBrec : getColumn store bId with
    | some recB => simpa using hB recB hBrec
    | none => simp
  set idx : Int := if newIndex == -1 ∨ ((target.cards.length : Int) < newIndex)
    then (target.cards.length : Int) else newIndex with hidx
  set recB' : IColumnData :=
    { target with cards := spliceInsert target.cards idx { cardData with columnId := bId } }
    with hrecB'
  refine ⟨recA', recB', ?_, ?_, hremnotmem, ?_, ?_, ?_, ?_⟩
  · have hBid' : aId ≠ recB'.id := by
      rw [hrecB']
      simpa [htargetId] using hne
    rw [getColumn_saveColumn_other _ _ hBid', hgA1]
  · have hself := getColumn_saveColumn_self (saveColumn store recA') recB'
    have : recB'.id = bId := by rw [hrecB']; simpa using htargetId
    rwa [this] at hself
  · rw [hrecB']
    simp only [spliceInsert_map]
    rw [spliceInsert_count]
    have h0 : (target.cards.map (fun c => c.id)).count cardId = 0 :=
      List.count_eq_zero.mpr htargetCount
    simp [h0, hcid]
  · intro c hc hcidc
    rw [hrecB'] at hc
    simp only at hc
    rcases mem_spliceInsert hc with hmem' | hval
    · exfalso
      apply htargetCount
      have : c.id ∈ target.cards.map (fun c => c.id) := List.mem_map_of_mem _ hmem'
      rwa [hcidc] at this
    · rw [hval]
  · rw [hrecB']
    simp only [spliceInsert_length]
    rw [htarget]
    cases hBrec : getColumn store bId with
    | some recB => simp
    | none => simp
  · rw [hrecA']
    simpa using removeFirstCard_length hmem

/-! ## DOM lemmas for the placeholder computation -/

theorem findColumn_single (colId : String) (ns : List Node) :
    findColumn [⟨colId, ns⟩] colId = some ⟨colId, ns⟩ := by
  simp [findColumn, List.find?]

theorem setColumnNodes_single (colId : String) (ns ms : List Node) :
    setColumnNodes [⟨colId, ns⟩] colId ms = [⟨colId, ms⟩] := by
  simp [setColumnNodes]

theorem placeholder_not_mem_map_card (ids : List String) :
    Node.placeholder ∉ ids.map Node.card := by
  simp

theorem cardsExcluding_map_card (ids : List String) (d : String) :
    cardsExcluding (ids.map Node.card) d = ids.filter (fun i => !(i == d)) := by
  simp only [cardsExcluding]
  induction ids with
  | nil => rfl
  | cons i rest ih =>
    by_cases hi : i = d
    · simpa [hi] using ih
    · simpa [hi] using ih

theorem filter_ne_of_not_mem {ids : List String} {d : String} (h : d ∉ ids) :
    ids.filter (fun i => !(i == d)) = ids := by
  induction ids with
  | nil => rfl
  | cons i rest ih =>
    simp only [List.mem_cons, not_or] at h
    have hi : (i == d) = false := beq_eq_false_iff_ne.mpr (Ne.symm h.1)
    simp only [List.filter, hi, Bool.not_false]
    rw [ih h.2]

theorem insertBeforeNode_append {pre : List Node} (x ref : Node) (post : List Node)
    (h : ref ∉ pre) : insertBeforeNode (pre ++ ref :: post) x ref =
      pre ++ x :: ref :: post := by
  induction pre with
  | nil => simp [insertBeforeNode]
  | cons y rest ih =>
    simp only [List.mem_cons, not_or] at h
    have hy : (y == ref) = false := beq_eq_false_iff_ne.mpr (Ne.symm h.1)
    simp only [List.cons_append, insertBeforeNode, hy, Bool.false_eq_true, if_false,
      List.append_eq]
    rw [ih h.2]

theorem find?_first_match {α : Type} (p : α → Bool) (pre : List α) (ck : α)
    (post : List α) (hpre : ∀ c ∈ pre, p c = false) (hck : p ck = true) :
    (pre ++ ck :: post).find? p = some ck := by
  induction pre with
  | nil => simp [List.find?, hck]
  | cons c rest ih =>
    have hc : p c = false := hpre c (by simp)
    simp only [List.cons_append, List.find?, hc]
    exact ih (fun c hc => hpre c (by simp [hc]))

/-- C3: `_updatePlaceholderPosition` scans the current column's siblings
(excluding the dragged card) in visual order for the first whose vertical
midpoint lies below the cursor and inserts the placeholder immediately before
it; with the cursor below siblings `pre`'s midpoints and above `ck`'s, the
placeholder lands at index `pre.length`, i.e. immediately before `ck`; with
the cursor below all siblings' midpoints it lands at the end. -/
theorem placeholder_insertion_spec (geo : Geometry) (y : ℚ) (colId d : String) :
    (∀ (pre : List String) (ck : String) (post : List String),
      d ∉ pre ++ ck :: post → ck ∉ pre →
      (∀ c ∈ pre, (geo c).midY < y) → y < (geo ck).midY →
      updatePlaceholderPosition geo y colId d
          [⟨colId, (pre ++ ck :: post).map Node.card⟩] =
        [⟨colId, pre.map Node.card ++ Node.placeholder ::
          (ck :: post).map Node.card⟩]) ∧
    (∀ sibs : List String, d ∉ sibs → (∀ c ∈ sibs, (geo c).midY < y) →
      updatePlaceholderPosition geo y colId d [⟨colId, sibs.map Node.card⟩] =
        [⟨colId, sibs.map Node.card ++ [Node.placeholder]⟩]) := by
  constructor
  · intro pre ck post hd hckpre hpre hck
    rw [updatePlaceholderPosition, findColumn_single]
    simp only [removePlaceholderDom, List.map_cons, List.map_nil]
    rw [List.erase_of_not_mem (placeholder_not_mem_map_card _),
      cardsExcluding_map_card, filter_ne_of_not_mem hd]
    have hfind : (pre ++ ck :: post).find? (fun c => y < (geo c).midY) = some ck := by
      refine find?_first_match _ pre ck post (fun c hc => ?_) (by simp [hck])
      have := hpre c hc
      simp [not_lt_of_gt this]
    rw [hfind]
    simp only [List.map_append, List.map_cons]
    rw [insertBeforeNode_append _ _ _ (by
      intro hmem
      exact hckpre (by simpa using hmem))]
    rw [setColumnNodes_single]
  · intro sibs hd hall
    rw [updatePlaceholderPosition, findColumn_single]
    simp only [removePlaceholderDom, List.map_cons, List.map_nil]
    rw [List.erase_of_not_mem (placeholder_not_mem_map_card _),
      cardsExcluding_map_card, filter_ne_of_not_mem hd]
    have hfind : sibs.find? (fun c => y < (geo c).midY) = none := by
      rw [List.find?_eq_none]
      intro c hc
      simp [not_lt_of_gt (hall c hc)]
    rw [hfind, setColumnNodes_single]

/-- Witness for `placeholder_insertion_spec` at a concrete geometry: sibling
midpoints 10 and 20, cursor at 15 — the placeholder lands between them; and
a single sibling with midpoint 10 — the placeholder lands at the end. -/
theorem placeholder_insertion_spec_witness :
    (updatePlaceholderPosition
        (fun c => if c = "a" then ⟨10, 0, 0, 0⟩ else ⟨20, 0, 0, 0⟩) 15 "col" "d"
        [⟨"col", [Node.card "a", Node.card "b"]⟩] =
      [⟨"col", [Node.card "a", Node.placeholder, Node.card "b"]⟩]) ∧
    (updatePlaceholderPosition
        (fun c => if c = "a" then ⟨10, 0, 0, 0⟩ else ⟨20, 0, 0, 0⟩) 15 "col" "d"
        [⟨"col", [Node.card "a"]⟩] =
      [⟨"col", [Node.card "a", Node.placeholder]⟩]) := by
  constructor
  · have h := (placeholder_insertion_spec
      (fun c => if c = "a" then ⟨10, 0, 0, 0⟩ else ⟨20, 0, 0, 0⟩) 15 "col" "d").1
      ["a"] "b" [] (by decide) (by decide)
      (by
        intro c hc
        simp only [List.mem_singleton] at hc
        subst hc
        norm_num +decide [Rect.midY])
      (by norm_num +decide [Rect.midY])
    simpa using h
  · have h := (placeholder_insertion_spec
      (fun c => if c = "a" then ⟨10, 0, 0, 0⟩ else ⟨20, 0, 0, 0⟩) 15 "col" "d").2
      ["a"] (by decide)
      (by
        intro c hc
        simp only [List.mem_singleton] at hc
        subst hc
        norm_num +decide [Rect.midY])
    simpa using h

/-! ## C4: the `newIndex` computation and the sentinel fallback -/

theorem jsIndexOf_append_cons {α : Type} [BEq α] [LawfulBEq α]
    (pre : List α) (x : α) (post : List α) (h : x ∉ pre) :
    jsIndexOf (pre ++ x :: post) x = (pre.length : Int) := by
  induction pre with
  | nil => simp [jsIndexOf]
  | cons y rest ih =>
    simp only [List.mem_cons, not_or] at h
    have hy : (y == x) = false := beq_eq_false_iff_ne.mpr (Ne.symm h.1)
    have hge : jsIndexOf (rest ++ x :: post) x = (rest.length : Int) := ih h.2
    have hne1 : ((rest.length : Int) == -1) = false := by
      simp only [beq_eq_false_iff_ne]
      omega
    simp only [List.cons_append, jsIndexOf, List.append_eq, hy, Bool.false_eq_true,
      if_false, hge, hne1, List.length_cons]
    push_cast
    ring

theorem jsIndexOf_of_not_mem {α : Type} [BEq α] [LawfulBEq α]
    {l : List α} {x : α} (h : x ∉ l) : jsIndexOf l x = -1 := by
  induction l with
  | nil => rfl
  | cons y rest ih =>
    simp only [List.mem_cons, not_or] at h
    have hy : (y == x) = false := beq_eq_false_iff_ne.mpr (Ne.symm h.1)
    simp [jsIndexOf, hy, ih h.2]

/-- C4: in `_finishDragging`, `newIndex` is the placeholder's position among
the target list's children as they are *before* any removal — for children
`pre ++ placeholder :: post` it equals `pre.length` — and it is the `-1`
sentinel when the placeholder is not among those children; and in the
intra-column branch of `_updateLocalStorage` a sentinel `newIndex` (with the
placeholder truly absent from the current column's card list) makes the card
record re-enter at the end of the column's stored list. -/
theorem newIndex_and_sentinel_spec :
    (∀ (pre post : List Node), Node.placeholder ∉ pre →
      computeNewIndex (pre ++ Node.placeholder :: post) = (pre.length : Int)) ∧
    (∀ nodes : List Node, Node.placeholder ∉ nodes → computeNewIndex nodes = -1) ∧
    (∀ (store : Store) (dom : Dom) (curCol : Option String) (ph : Bool)
        (oId cardId : String) (rec : IColumnData) (cardData : ICardData),
      getColumn store oId = some rec →
      rec.cards.find? (fun c => c.id == cardId) = some cardData →
      (∀ cc col, curCol = some cc → findColumn dom cc = some col →
        Node.placeholder ∉ col.nodes) →
      updateLocalStorage (some cardId) oId curCol ph dom oId (-1) store =
        saveColumn store
          { rec with cards := removeFirstCard rec.cards cardId ++ [cardData] }) := by
  refine ⟨?_, ?_, ?_⟩
  · intro pre post h
    rw [computeNewIndex, if_pos (by simp), jsIndexOf_append_cons pre _ post h]
  · intro nodes h
    rw [computeNewIndex, if_neg h]
  · intro store dom curCol ph oId cardId rec cardData hrec hfind hph
    have hfb : fallbackIndex curCol ph dom (removeFirstCard rec.cards cardId).length =
        ((removeFirstCard rec.cards cardId).length : Int) := by
      rcases curCol with _ | cc
      · rfl
      · cases ph with
        | false => rfl
        | true =>
          simp only [fallbackIndex]
          cases hcol : findColumn dom cc with
          | none => rfl
          | some col =>
            have := jsIndexOf_of_not_mem (hph cc col rfl hcol)
            simp [this]
    simp only [updateLocalStorage, hrec, hfind, beq_self_eq_true, if_true, reduceIte,
      hfb, spliceInsert_at_length]

/-- Witness for `newIndex_and_sentinel_spec` at concrete inputs: children
`[card a, placeholder, card b]` give `newIndex = 1`; children `[card a]`
give the sentinel; and a sentinel intra-column update on a two-card column
re-appends the moved card at the end of the stored list. -/
theorem newIndex_and_sentinel_spec_witness :
    computeNewIndex [Node.card "a", Node.placeholder, Node.card "b"] = 1 ∧
    computeNewIndex [Node.card "a"] = -1 ∧
    updateLocalStorage (some "x") "c" none false [] "c" (-1)
        [⟨"c", "t", [⟨"x", "", "", "c"⟩, ⟨"z", "", "", "c"⟩]⟩] =
      saveColumn [⟨"c", "t", [⟨"x", "", "", "c"⟩, ⟨"z", "", "", "c"⟩]⟩]
        ⟨"c", "t", [⟨"z", "", "", "c"⟩, ⟨"x", "", "", "c"⟩]⟩ := by
  refine ⟨?_, ?_, ?_⟩
  · simpa using newIndex_and_sentinel_spec.1 [Node.card "a"] [Node.card "b"] (by decide)
  · exact newIndex_and_sentinel_spec.2.1 [Node.card "a"] (by decide)
  · have h := newIndex_and_sentinel_spec.2.2
      [⟨"c", "t", [⟨"x", "", "", "c"⟩, ⟨"z", "", "", "c"⟩]⟩] [] none false "c" "x"
      ⟨"c", "t", [⟨"x", "", "", "c"⟩, ⟨"z", "", "", "c"⟩]⟩ ⟨"x", "", "", "c"⟩
      (by decide) (by decide) (fun cc col hcc => Option.noConfusion hcc)
    simpa [removeFirstCard] using h

/-- Witness for `crossColumnMove_spec`: moving the only card `x` of column
`a` into (absent) column `b`. -/
theorem crossColumnMove_spec_witness :
    ∃ recA' recB',
      getColumn (updateLocalStorage (some "x") "a" none false [] "b" 0
        [⟨"a", "", [⟨"x", "", "", "a"⟩]⟩]) "a" = some recA' ∧
      getColumn (updateLocalStorage (some "x") "a" none false [] "b" 0
        [⟨"a", "", [⟨"x", "", "", "a"⟩]⟩]) "b" = some recB' ∧
      "x" ∉ recA'.cards.map (fun c => c.id) ∧
      (recB'.cards.map (fun c => c.id)).count "x" = 1 ∧
      (∀ c ∈ recB'.cards, c.id = "x" → c.columnId = "b") ∧
      recB'.cards.length =
        ((getColumn ([⟨"a", "", [⟨"x", "", "", "a"⟩]⟩] : Store) "b").map
          (fun r => r.cards.length)).getD 0 + 1 ∧
      recA'.cards.length + 1 = ([⟨"x", "", "", "a"⟩] : List ICardData).length :=
  crossColumnMove_spec [⟨"a", "", [⟨"x", "", "", "a"⟩]⟩] [] none false "a" "b" "x" 0
    ⟨"a", "", [⟨"x", "", "", "a"⟩]⟩ (by decide) (by decide) (by decide)
    (fun recB h => by simp [StorageService.getColumn, List.find?] at h)

theorem mapSet_append {m : JsMap} {k : String} {v : CardInfo}
    (h : k ∉ m.map (fun p => p.1)) : mapSet m k v = m ++ [(k, v)] := by
  have hany : m.any (fun p => p.1 == k) = false := by
    rw [List.any_eq_false]
    intro p hp
    have : p.1 ≠ k := by
      intro hk
      exact h (hk ▸ List.mem_map_of_mem (fun p => p.1) hp)
    simp [this]
  rw [mapSet, if_neg (by simp [hany])]

theorem foldl_mapSet_keys (cards : List ICardData) (acc : JsMap)
    (hdisj : ∀ c ∈ cards, c.id ∉ acc.map (fun p => p.1))
    (hnd : (cards.map (fun c => c.id)).Nodup) :
    renderedCardIds (cards.foldl (fun m c => mapSet m c.id ⟨c.title, c.text⟩) acc) =
      renderedCardIds acc ++ cards.map (fun c => c.id) := by
  induction cards generalizing acc with
  | nil => simp
  | cons c rest ih =>
    have hnotin : c.id ∉ acc.map (fun p => p.1) := hdisj c (by simp)
    rw [List.map_cons, List.nodup_cons] at hnd
    have hdisj' : ∀ c' ∈ rest,
        c'.id ∉ (acc ++ [(c.id, CardInfo.mk c.title c.text)]).map
          (fun p => p.1) := by
      intro c' hc'
      simp only [List.map_append, List.mem_append, not_or]
      refine ⟨hdisj c' (by simp [hc']), ?_⟩
      have : c'.id ≠ c.id := by
        intro he
        exact hnd.1 (he ▸ List.mem_map_of_mem (fun c => c.id) hc')
      simp [this]
    simp only [List.foldl_cons, mapSet_append hnotin]
    rw [ih (acc ++ [(c.id, CardInfo.mk c.title c.text)]) hdisj' hnd.2]
    simp [renderedCardIds]

/-- C8: rebuilding a column from the store — loading its record into the
card `Map` at construction and rendering the card list from the `Map` —
produces cards in exactly the persisted order, whenever the persisted ids of
that column are pairwise distinct. -/
theorem column_reload_roundtrip (store : Store) (cid : String) (rec : IColumnData)
    (h : getColumn store cid = some rec)
    (hnd : (rec.cards.map (fun c => c.id)).Nodup) :
    renderedCardIds (loadCardsFromStorage (getColumn store cid)) =
      rec.cards.map (fun c => c.id) := by
  rw [h]
  show renderedCardIds (loadCardsFromStorage (some rec)) = _
  rw [loadCardsFromStorage]
  by_cases hlen : rec.cards.length > 0
  · rw [if_pos hlen, foldl_mapSet_keys rec.cards [] (by simp) hnd]
    rfl
  · have : rec.cards = [] := by
      cases hc : rec.cards with
      | nil => rfl
      | cons a l => rw [hc] at hlen; simp at hlen
    rw [if_neg hlen, this]
    rfl

/-- Witness for `column_reload_roundtrip` at a concrete two-card store. -/
theorem column_reload_roundtrip_witness :
    renderedCardIds (loadCardsFromStorage (getColumn
        ([⟨"todo", "t", [⟨"a", "ta", "xa", "todo"⟩, ⟨"b", "tb", "xb", "todo"⟩]⟩] : Store)
        "todo")) = ["a", "b"] := by
  have h := column_reload_roundtrip
    [⟨"todo", "t", [⟨"a", "ta", "xa", "todo"⟩, ⟨"b", "tb", "xb", "todo"⟩]⟩] "todo"
    ⟨"todo", "t", [⟨"a", "ta", "xa", "todo"⟩, ⟨"b", "tb", "xb", "todo"⟩]⟩
    (by decide) (by decide)
  simpa using h

theorem cardIds_map_card (ids : List String) : cardIds (ids.map Node.card) = ids := by
  simp only [cardIds]
  induction ids with
  | nil => rfl
  | cons i rest ih => simpa using ih

theorem filter_ne_middle {pre post : List String} {d : String}
    (hpre : d ∉ pre) (hpost : d ∉ post) :
    (pre ++ d :: post).filter (fun i => !(i == d)) = pre ++ post := by
  rw [List.filter_append, filter_ne_of_not_mem hpre]
  have h2 : (d :: post).filter (fun i => !(i == d)) =
      post.filter (fun i => !(i == d)) := by
    simp [List.filter]
  rw [h2, filter_ne_of_not_mem hpost]

/-- Evaluation of pointer-up on a single-column board: the dragged card is
removed and re-inserted immediately before the placeholder, and cleanup then
strips the placeholder. -/
theorem handleMouseUp_single_dom (drag : DragState) (colId d : String)
    (ns : List Node) (store : Store)
    (hdrag : drag.isDragging = true)
    (hd : drag.draggedElement = some d) (hp : drag.placeholder = some ())
    (hc : drag.currentColumn = some colId)
    (hmem : Node.placeholder ∈ ns.erase (Node.card d)) :
    (handleMouseUp ⟨drag, [⟨colId, ns⟩], store⟩).dom =
      [⟨colId, (insertBeforeNode (ns.erase (Node.card d)) (Node.card d)
        Node.placeholder).erase Node.placeholder⟩] := by
  unfold handleMouseUp
  simp only [hdrag, Bool.true_eq_false, if_false]
  unfold finishDragging
  simp only [hd, hp, hc]
  rw [findColumn_single]
  simp only [hmem, if_true, reduceIte]
  simp only [cleanup, hp, Option.isSome_some, if_true, removeCardDom, List.map_cons,
    List.map_nil, setColumnNodes, removePlaceholderDom, beq_self_eq_true, if_true]

/-- When erasing the dragged card from the post-gesture card list leaves the
placeholder at the head, pointer-up puts the dragged card first. -/
theorem final_dom_cardIds (colId d : String) (L : List String)
    (drag : DragState) (store : Store) (ns : List Node)
    (hdrag : drag.isDragging = true) (hd : drag.draggedElement = some d)
    (hp : drag.placeholder = some ()) (hc : drag.currentColumn = some colId)
    (herase : ns.erase (Node.card d) = Node.placeholder :: L.map Node.card) :
    columnCardIds (handleMouseUp ⟨drag, [⟨colId, ns⟩], store⟩).dom colId = d :: L := by
  rw [handleMouseUp_single_dom drag colId d ns store hdrag hd hp hc
    (by rw [herase]; simp), herase]
  simp only [insertBeforeNode, beq_self_eq_true, if_true]
  rw [List.erase_cons_tail (by simp), List.erase_cons_head]
  simp only [columnCardIds, findColumn_single]
  have hciL := cardIds_map_card L
  simp only [cardIds] at hciL ⊢
  simp [hciL]

/-- C9: the placeholder's initial position is computed with pointer
coordinates `(0, 0)`, so a pointer-down immediately followed by pointer-up
(no pointer-move) does not leave the card where it was: with every sibling's
vertical midpoint positive (i.e. on screen), the card is relocated to before
the first sibling, index 0 of its column. -/
theorem pointerDown_initial_placeholder (geo : Geometry) (e : MouseDownEvent)
    (colId d : String) (preIds postIds : List String) (store : Store)
    (hbutton : e.button = 0) (hdel : e.onDeleteBtn = false)
    (htarget : e.targetCard = some d)
    (hdpre : d ∉ preIds) (hdpost : d ∉ postIds)
    (hpos : ∀ c ∈ preIds ++ postIds, 0 < (geo c).midY) :
    columnCardIds (handleMouseUp (handleMouseDown geo e
      ⟨initialDragState, [⟨colId, (preIds ++ d :: postIds).map Node.card⟩], store⟩)).dom
      colId = d :: (preIds ++ postIds) := by
  have hdmem : Node.card d ∈ (preIds ++ d :: postIds).map Node.card :=
    List.mem_map_of_mem _ (by simp)
  have hfc : findColumnOfCard [⟨colId, (preIds ++ d :: postIds).map Node.card⟩] d =
      some ⟨colId, (preIds ++ d :: postIds).map Node.card⟩ := by
    simp [findColumnOfCard, List.find?, hdmem]
  have hstep1 : handleMouseDown geo e
      ⟨initialDragState, [⟨colId, (preIds ++ d :: postIds).map Node.card⟩], store⟩ =
      ⟨⟨true, some d, some (), some colId, colId,
          jsIndexOf (cardIds ((preIds ++ d :: postIds).map Node.card)) d,
          some colId, (geo d).width, e.clientX - (geo d).left, e.clientY - (geo d).top⟩,
        updatePlaceholderPosition geo 0 colId d
          [⟨colId, (preIds ++ d :: postIds).map Node.card⟩], store⟩ := by
    unfold handleMouseDown
    rw [if_neg (by simp [hbutton]), if_neg (by simp [hdel]), htarget]
    simp only [hfc]
  rw [hstep1]
  rcases preIds with _ | ⟨p0, pre'⟩
  · rcases postIds with _ | ⟨q0, post'⟩
    · -- no siblings at all
      have hupp : updatePlaceholderPosition geo 0 colId d
          [⟨colId, (([] : List String) ++ d :: ([] : List String)).map Node.card⟩] =
          [⟨colId, [Node.card d, Node.placeholder]⟩] := by
        rw [updatePlaceholderPosition, findColumn_single]
        simp only [removePlaceholderDom, List.map_cons, List.map_nil]
        rw [List.erase_of_not_mem (placeholder_not_mem_map_card _),
          cardsExcluding_map_card, filter_ne_middle hdpre hdpost]
        simp [List.find?, setColumnNodes_single]
      rw [hupp]
      exact final_dom_cardIds colId d [] _ store _ rfl rfl rfl rfl
        (by simp [List.erase_cons_head])
    · -- no earlier siblings, later sibling q0
      have hdq0 : d ≠ q0 := by
        intro he
        exact hdpost (by simp [he])
      have hq0 : (0:ℚ) < (geo q0).midY := hpos q0 (by simp)
      have hupp : updatePlaceholderPosition geo 0 colId d
          [⟨colId, (([] : List String) ++ d :: q0 :: post').map Node.card⟩] =
          [⟨colId, Node.card d :: Node.placeholder :: (q0 :: post').map Node.card⟩] := by
        rw [updatePlaceholderPosition, findColumn_single]
        simp only [removePlaceholderDom, List.map_cons, List.map_nil]
        rw [List.erase_of_not_mem (placeholder_not_mem_map_card _),
          cardsExcluding_map_card, filter_ne_middle hdpre hdpost]
        have hfind : (([] : List String) ++ q0 :: post').find?
            (fun cid => decide ((0:ℚ) < (geo cid).midY)) = some q0 :=
          find?_first_match _ [] q0 post' (by simp) (by simp [hq0])
        rw [hfind]
        have hne : (Node.card d == Node.card q0) = false := by simp [hdq0]
        simp only [List.map_cons, insertBeforeNode, hne, Bool.false_eq_true, if_false,
          beq_self_eq_true, if_true]
        rw [setColumnNodes_single]
      rw [hupp]
      refine final_dom_cardIds colId d (([] : List String) ++ q0 :: post') _ store _
        rfl rfl rfl rfl ?_
      rw [List.erase_cons_head]
      simp
  · -- earlier sibling p0 exists
    have hp0 : (0:ℚ) < (geo p0).midY := hpos p0 (by simp)
    have hcardd : Node.card d ∉ (p0 :: pre').map Node.card := by
      simpa using hdpre
    have hupp : updatePlaceholderPosition geo 0 colId d
        [⟨colId, ((p0 :: pre') ++ d :: postIds).map Node.card⟩] =
        [⟨colId, Node.placeholder :: ((p0 :: pre') ++ d :: postIds).map Node.card⟩] := by
      rw [updatePlaceholderPosition, findColumn_single]
      simp only [removePlaceholderDom, List.map_cons, List.map_nil]
      rw [List.erase_of_not_mem (placeholder_not_mem_map_card _),
        cardsExcluding_map_card, filter_ne_middle hdpre hdpost]
      have hfind : ((p0 :: pre') ++ postIds).find?
          (fun cid => decide ((0:ℚ) < (geo cid).midY)) = some p0 :=
        find?_first_match _ [] p0 (pre' ++ postIds) (by simp) (by simp [hp0])
      rw [hfind]
      simp only [List.cons_append, List.map_cons, insertBeforeNode, beq_self_eq_true,
        if_true]
      rw [setColumnNodes_single]
      simp [List.append_eq]
    rw [hupp]
    refine final_dom_cardIds colId d ((p0 :: pre') ++ postIds) _ store _
      rfl rfl rfl rfl ?_
    rw [List.map_append, List.erase_cons_tail (by simp),
      List.erase_append_right _ hcardd]
    simp [List.map_append, List.erase_cons_head]


/-- Witness for `pointerDown_initial_placeholder`: clicking card `d` sitting
between siblings `a` and `b` (all midpoints 10) moves it to the front. -/
theorem pointerDown_initial_placeholder_witness :
    columnCardIds (handleMouseUp (handleMouseDown (fun _ => ⟨10, 0, 0, 0⟩)
      ⟨0, false, some "d", 3, 4⟩
      ⟨initialDragState, [⟨"c", (["a"] ++ "d" :: ["b"]).map Node.card⟩], []⟩)).dom
      "c" = "d" :: (["a"] ++ ["b"]) :=
  pointerDown_initial_placeholder (fun _ => ⟨10, 0, 0, 0⟩) ⟨0, false, some "d", 3, 4⟩
    "c" "d" ["a"] ["b"] [] rfl rfl rfl (by decide) (by decide)
    (fun c hc => by norm_num [Rect.midY])

end Kanban
